import Mathlib

/-!
Verification of the sigma-clipped image-combination demonstration of
`notebooks/01.06-Image-combination.ipynb`.

The notebook works on a stack `bits` of shape `[N, W]` (N one-dimensional
"images" of W pixels each, the 320x320 image being kept flattened) and runs:

```python
mad_sigma = mad_std(bits, axis=0)                 # per-pixel robust scale
exclude   = (bits - median) / mad_sigma > 10      # per-sample rejection flags
original_values = bits[exclude]
bits[exclude] = np.nan                            # temporary in-place overwrite
clip_combine = np.nanmean(bits, axis=0)           # mean of the kept samples
bits[exclude] = original_values                   # restore the stack
```

where `median = np.median(bits, axis=0)`.

The embedding below models the stack as `List (List ℚ)` (rows are images),
`np.nan` as `none : Option ℚ`, and every `axis=0` array operation as the
corresponding per-pixel (per-column) computation, which is exactly what the
vectorized numpy expressions compute, pixel by pixel.  The IEEE semantics of
the float comparison `(x - m) / sigma > t` at `sigma = 0` is made explicit in
`exclude`: numpy yields `+inf > t` (true for every finite `t`) when `x > m`,
`-inf > t` (false) when `x < m`, and `nan > t` (false) when `x = m`.
-/

namespace Combine

/-- `np.median` of the `N` samples at one pixel: sort and take the middle
element (odd `N`), or the average of the two middle elements (even `N`).
`np.median` of an empty axis is NaN; the empty case below returns a junk
value and every theorem about `median` assumes a nonempty list. -/
def median (l : List ℚ) : ℚ :=
  if l.length % 2 = 1 then (l.insertionSort (· ≤ ·)).getD (l.length / 2) 0
  else
    ((l.insertionSort (· ≤ ·)).getD (l.length / 2 - 1) 0 +
      (l.insertionSort (· ≤ ·)).getD (l.length / 2) 0) / 2

/-- The Gaussian consistency constant 1.4826 by which `astropy.stats.mad_std`
scales the median absolute deviation (notebook markdown: "multiplying the MAD
by 1.4826 does the trick"). -/
def madConst : ℚ := 14826 / 10000

/-- Modelled from the spec: `astropy.stats.mad_std` is an external library
function not contained in this repository.  Per its documentation cited in the
notebook and spec section 3, it is the median of the absolute deviations from
the median, scaled by 1.4826. -/
def mad_std (l : List ℚ) : ℚ :=
  madConst * median (l.map (fun x => |x - median l|))

/-- Number of pixels per image (`bits.shape[1]`). -/
def width (bits : List (List ℚ)) : ℕ := (bits.headD []).length

/-- The `N` samples at pixel `j`: entry `j` of every image (`bits[:, j]`). -/
def column (bits : List (List ℚ)) (j : ℕ) : List ℚ :=
  bits.map (fun img => img.getD j 0)

/-- `median = np.median(bits, axis=0)`: the per-pixel median array. -/
def medianArr (bits : List (List ℚ)) : List ℚ :=
  (List.range (width bits)).map (fun j => median (column bits j))

/-- `mad_sigma = mad_std(bits, axis=0)`: the per-pixel robust scale array. -/
def mad_sigma (bits : List (List ℚ)) : List ℚ :=
  (List.range (width bits)).map (fun j => mad_std (column bits j))

/-- One entry of the boolean array `exclude = (bits - median) / mad_sigma > t`
(the notebook fixes `t = 10`; it is a parameter here).  The `sigma = 0` branch
spells out the IEEE float semantics of the numpy expression: `(x - m) / 0` is
`+inf` for `x > m` (compares greater than every finite threshold), `-inf` for
`x < m` and `nan` for `x = m` (both compare false). -/
def exclude (m sigma t x : ℚ) : Bool :=
  if sigma = 0 then decide (m < x) else decide (t < (x - m) / sigma)

/-- The rejection flag of sample value `x` at pixel `j`, reading the per-pixel
statistics off the `medianArr` and `mad_sigma` arrays as the numpy broadcast
does. -/
def pixelExclude (bits : List (List ℚ)) (t : ℚ) (j : ℕ) (x : ℚ) : Bool :=
  exclude ((medianArr bits).getD j 0) ((mad_sigma bits).getD j 0) t x

/-- The column of rejection flags at one pixel: the slice `exclude[:, j]`. -/
def colExclude (t : ℚ) (col : List ℚ) : List Bool :=
  col.map (fun x => exclude (median col) (mad_std col) t x)

/-- The state of the `bits` buffer after `bits[exclude] = np.nan`: each
excluded entry is overwritten with NaN (`none`), the rest keep their values
(`some`). -/
def writeNaN (bits : List (List ℚ)) (t : ℚ) : List (List (Option ℚ)) :=
  bits.map (fun img =>
    (List.range img.length).map (fun j =>
      if pixelExclude bits t j (img.getD j 0) then none else some (img.getD j 0)))

/-- `np.nanmean` of one pixel's samples: the mean of the non-NaN entries, or
NaN (`none`) when every entry is NaN. -/
def nanmean (l : List (Option ℚ)) : Option ℚ :=
  if l.filterMap id = [] then none
  else some ((l.filterMap id).sum / (l.filterMap id).length)

/-- `clip_combine = np.nanmean(bits, axis=0)` evaluated on the buffer in its
NaN-overwritten state: pixel `j` is the nanmean of column `j` of the mutated
buffer. -/
def clip_combine (bits : List (List ℚ)) (t : ℚ) : List (Option ℚ) :=
  (List.range (width bits)).map (fun j =>
    nanmean ((writeNaN bits t).map (fun row => row.getD j none)))

/-- Column `j` after masking, computed directly from the original samples;
`buffer_column` below proves it equal to column `j` of `writeNaN`. -/
def maskCol (t : ℚ) (col : List ℚ) : List (Option ℚ) :=
  col.map (fun x =>
    if exclude (median col) (mad_std col) t x then none else some x)

/-- The state of the buffer after the final `bits[exclude] = original_values`:
excluded entries are restored from the saved originals (read off `bits`, which
is the pre-mutation stack the originals were saved from), the rest keep their
buffer value. -/
def restoreOriginal (bits : List (List ℚ)) (buf : List (List (Option ℚ)))
    (t : ℚ) : List (List ℚ) :=
  List.zipWith (fun img bufImg =>
    (List.range img.length).map (fun j =>
      if pixelExclude bits t j (img.getD j 0) then img.getD j 0
      else (bufImg.getD j none).getD 0)) bits buf

/-- The whole demonstration cell as a state transformer on the `bits` buffer:
it returns the combined image together with the final state of the buffer
(mask, nanmean, restore). -/
def combineRun (bits : List (List ℚ)) (t : ℚ) :
    List (Option ℚ) × List (List ℚ) :=
  (clip_combine bits t, restoreOriginal bits (writeNaN bits t) t)

/-- The notebook markdown's (mistaken) prose formula for the MAD:
`(1/N) * Σ |x_i - median(x)|`, a mean of absolute deviations. -/
def meanAbsDev (l : List ℚ) : ℚ :=
  (l.map (fun x => |x - median l|)).sum / l.length

/-- The (biased) variance `(1/N) * Σ (x_i - mean x)^2`, the square of the
standard deviation `np.std` computes. -/
def stackVariance (l : List ℚ) : ℚ :=
  (l.map (fun x => (x - l.sum / l.length) ^ 2)).sum / l.length

/-! ### Helper lemmas -/

theorem getD_range_map {α : Type} (n : ℕ) (f : ℕ → α) (j : ℕ) (d : α)
    (hj : j < n) : ((List.range n).map f).getD j d = f j := by
  rw [List.getD_eq_getElem?_getD, List.getElem?_map, List.getElem?_range hj]
  rfl

theorem map_getD_range {α : Type} (l : List α) (d : α) :
    (List.range l.length).map (fun j => l.getD j d) = l := by
  induction l with
  | nil => rfl
  | cons a tl ih =>
    rw [List.length_cons, List.range_succ_eq_map, List.map_cons, List.map_map]
    have h : ((fun j => (a :: tl).getD j d) ∘ Nat.succ) = fun j => tl.getD j d := by
      funext j
      simp [List.getD_cons_succ]
    rw [List.getD_cons_zero, h, ih]

/-- The median of a nonempty list is bracketed by two of its elements. -/
theorem median_bounds (l : List ℚ) (hl : l ≠ []) :
    (∃ a ∈ l, a ≤ median l) ∧ (∃ b ∈ l, median l ≤ b) := by
  have hlen : (l.insertionSort (· ≤ ·)).length = l.length := List.length_insertionSort _ l
  have hperm := List.perm_insertionSort (· ≤ ·) l
  have hsorted := List.sorted_insertionSort (· ≤ ·) l
  have hn : 0 < l.length := List.length_pos.mpr hl
  unfold median
  split
  · rename_i hodd
    have hj : l.length / 2 < (l.insertionSort (· ≤ ·)).length := by omega
    have hgd : (l.insertionSort (· ≤ ·)).getD (l.length / 2) 0 =
        (l.insertionSort (· ≤ ·)).get ⟨l.length / 2, hj⟩ := by
      rw [List.getD_eq_getElem?_getD, List.getElem?_eq_getElem hj]
      rfl
    have hmem : (l.insertionSort (· ≤ ·)).get ⟨l.length / 2, hj⟩ ∈ l :=
      hperm.mem_iff.mp (List.get_mem _ _ _)
    rw [hgd]
    exact ⟨⟨_, hmem, le_refl _⟩, ⟨_, hmem, le_refl _⟩⟩
  · rename_i heven
    have h2 : 2 ≤ l.length := by omega
    have hj1 : l.length / 2 - 1 < (l.insertionSort (· ≤ ·)).length := by omega
    have hj2 : l.length / 2 < (l.insertionSort (· ≤ ·)).length := by omega
    have hgd1 : (l.insertionSort (· ≤ ·)).getD (l.length / 2 - 1) 0 =
        (l.insertionSort (· ≤ ·)).get ⟨l.length / 2 - 1, hj1⟩ := by
      rw [List.getD_eq_getElem?_getD, List.getElem?_eq_getElem hj1]
      rfl
    have hgd2 : (l.insertionSort (· ≤ ·)).getD (l.length / 2) 0 =
        (l.insertionSort (· ≤ ·)).get ⟨l.length / 2, hj2⟩ := by
      rw [List.getD_eq_getElem?_getD, List.getElem?_eq_getElem hj2]
      rfl
    have hab : (l.insertionSort (· ≤ ·)).get ⟨l.length / 2 - 1, hj1⟩ ≤
        (l.insertionSort (· ≤ ·)).get ⟨l.length / 2, hj2⟩ := by
      apply hsorted.rel_get_of_le
      rw [Fin.mk_le_mk]
      omega
    have hmem1 : (l.insertionSort (· ≤ ·)).get ⟨l.length / 2 - 1, hj1⟩ ∈ l :=
      hperm.mem_iff.mp (List.get_mem _ _ _)
    have hmem2 : (l.insertionSort (· ≤ ·)).get ⟨l.length / 2, hj2⟩ ∈ l :=
      hperm.mem_iff.mp (List.get_mem _ _ _)
    rw [hgd1, hgd2]
    constructor
    · exact ⟨_, hmem1, by linarith⟩
    · exact ⟨_, hmem2, by linarith⟩

theorem median_nonneg (l : List ℚ) (hl : l ≠ []) (hpos : ∀ x ∈ l, 0 ≤ x) :
    0 ≤ median l := by
  obtain ⟨⟨a, ha, hale⟩, _⟩ := median_bounds l hl
  exact le_trans (hpos a ha) hale

theorem mad_std_nonneg (l : List ℚ) (hl : l ≠ []) : 0 ≤ mad_std l := by
  unfold mad_std
  apply mul_nonneg
  · norm_num [madConst]
  · apply median_nonneg
    · simp [hl]
    · intro x hx
      obtain ⟨y, _, rfl⟩ := List.mem_map.mp hx
      exact abs_nonneg _

theorem median_replicate (n : ℕ) (hn : 0 < n) (c : ℚ) :
    median (List.replicate n c) = c := by
  have hperm := List.perm_insertionSort (· ≤ ·) (List.replicate n c)
  have hsort_eq : (List.replicate n c).insertionSort (· ≤ ·) = List.replicate n c := by
    rw [List.eq_replicate_iff]
    exact ⟨by simp,
      fun b hb => List.eq_of_mem_replicate (hperm.mem_iff.mp hb)⟩
  have hget : ∀ j, j < n → (List.replicate n c).getD j 0 = c := by
    intro j hj
    rw [List.getD_eq_getElem?_getD, List.getElem?_replicate, if_pos hj]
    rfl
  unfold median
  rw [hsort_eq, List.length_replicate]
  split
  · exact hget _ (by omega)
  · rename_i h
    rw [hget _ (by omega), hget _ (by omega)]
    ring

theorem mad_std_replicate (n : ℕ) (hn : 0 < n) (c : ℚ) :
    mad_std (List.replicate n c) = 0 := by
  unfold mad_std
  rw [median_replicate n hn, List.map_replicate, sub_self, abs_zero,
    median_replicate n hn, mul_zero]

/-- A sample at or below the per-pixel median is never rejected (for a
positive threshold and nonnegative scale): its deviation is nonpositive (or
`-inf`/`nan` at zero scale), never greater than the threshold. -/
theorem exclude_false_of_le (m sigma t x : ℚ) (hx : x ≤ m) (ht : 0 < t)
    (hs : 0 ≤ sigma) : exclude m sigma t x = false := by
  unfold exclude
  split
  · simp [not_lt.mpr hx]
  · rename_i hne
    have hspos : 0 < sigma := lt_of_le_of_ne hs (Ne.symm hne)
    have hdiv : (x - m) / sigma ≤ 0 :=
      div_nonpos_of_nonpos_of_nonneg (sub_nonpos.mpr hx) hspos.le
    simp only [decide_eq_false_iff_not, not_lt]
    linarith

/-- At a constant pixel the scale is zero and no sample is rejected. -/
theorem colExclude_replicate (n : ℕ) (hn : 0 < n) (t c : ℚ) :
    colExclude t (List.replicate n c) = List.replicate n false := by
  unfold colExclude
  rw [median_replicate n hn, mad_std_replicate n hn, List.map_replicate]
  simp [exclude]

theorem maskCol_replicate (n : ℕ) (hn : 0 < n) (t c : ℚ) :
    maskCol t (List.replicate n c) = List.replicate n (some c) := by
  unfold maskCol
  rw [median_replicate n hn, mad_std_replicate n hn, List.map_replicate]
  simp [exclude]

theorem nanmean_replicate (n : ℕ) (hn : 0 < n) (c : ℚ) :
    nanmean (List.replicate n (some c)) = some c := by
  have hfm : ∀ m : ℕ, (List.replicate m (some c)).filterMap id = List.replicate m c := by
    intro m
    induction m with
    | zero => rfl
    | succ k ih => simp [List.replicate_succ, ih]
  unfold nanmean
  rw [hfm]
  rw [if_neg (by simp [List.replicate, hn.ne'] )]
  rw [List.sum_replicate, List.length_replicate]
  congr 1
  rw [nsmul_eq_mul, mul_comm, mul_div_assoc,
    div_self (by exact_mod_cast hn.ne' : (n : ℚ) ≠ 0), mul_one]

/-- If some entry of a pixel column survives masking, `nanmean` returns a
genuine mean, not NaN. -/
theorem nanmean_some_of_mem (l : List (Option ℚ)) (x : ℚ) (hx : some x ∈ l) :
    ∃ q : ℚ, nanmean l = some q := by
  have hmem : x ∈ l.filterMap id := List.mem_filterMap.mpr ⟨some x, hx, rfl⟩
  have hne : l.filterMap id ≠ [] := List.ne_nil_of_mem hmem
  exact ⟨_, by rw [nanmean, if_neg hne]⟩

/-- Reading the per-pixel statistics arrays at an in-range pixel gives the
column statistics. -/
theorem pixelExclude_lt (bits : List (List ℚ)) (t : ℚ) (j : ℕ) (x : ℚ)
    (hj : j < width bits) :
    pixelExclude bits t j x =
      exclude (median (column bits j)) (mad_std (column bits j)) t x := by
  unfold pixelExclude medianArr mad_sigma
  rw [getD_range_map _ _ _ _ hj, getD_range_map _ _ _ _ hj]

/-- Column `j` of the NaN-overwritten buffer is the masked column of the
original samples (for a rectangular stack and in-range pixel). -/
theorem buffer_column (bits : List (List ℚ)) (t : ℚ) (j : ℕ)
    (hrect : ∀ img ∈ bits, img.length = width bits) (hj : j < width bits) :
    (writeNaN bits t).map (fun row => row.getD j none) =
      maskCol t (column bits j) := by
  unfold writeNaN maskCol column
  rw [List.map_map, List.map_map]
  apply List.map_congr_left
  intro img hmem
  have hlen : j < img.length := by rw [hrect img hmem]; exact hj
  simp only [Function.comp]
  rw [getD_range_map _ _ _ _ hlen, pixelExclude_lt _ _ _ _ hj]
  rfl

/-- `clip_combine` computed column by column: pixel `j` of the result is the
nanmean of the masked samples at pixel `j`. -/
theorem clip_combine_cols (bits : List (List ℚ)) (t : ℚ)
    (hrect : ∀ img ∈ bits, img.length = width bits) :
    clip_combine bits t =
      (List.range (width bits)).map (fun j => nanmean (maskCol t (column bits j))) := by
  unfold clip_combine
  apply List.map_congr_left
  intro j hjr
  rw [buffer_column bits t j hrect (List.mem_range.mp hjr)]

/-- After `bits[exclude] = original_values`, the buffer holds exactly the
original stack again. -/
theorem restore_writeNaN (bits : List (List ℚ)) (t : ℚ) :
    restoreOriginal bits (writeNaN bits t) t = bits := by
  unfold restoreOriginal writeNaN
  rw [List.zipWith_map_right, List.zipWith_same]
  conv_rhs => rw [← List.map_id bits]
  apply List.map_congr_left
  intro img hmem
  have hrow : ∀ j ∈ List.range img.length,
      (if pixelExclude bits t j (img.getD j 0) then img.getD j 0
        else (((List.range img.length).map (fun j' =>
          if pixelExclude bits t j' (img.getD j' 0) then none
          else some (img.getD j' 0))).getD j none).getD 0) = img.getD j 0 := by
    intro j hjr
    rw [getD_range_map _ _ _ _ (List.mem_range.mp hjr)]
    by_cases hP : pixelExclude bits t j (img.getD j 0)
    · rw [if_pos hP]
    · rw [if_neg hP, if_neg hP]
      rfl
  rw [List.map_congr_left hrow, map_getD_range]
  rfl

/-! ### Claims -/

/-- Claim C1 (code bug): the spec says a sample is rejected exactly when its
signed deviation exceeds `high_threshold` or is below `-low_threshold`, and
the notebook's own markdown says the `exclude` expression is true for all
points farther than ten robust sigmas from the median; but
`exclude = (bits - median) / mad_sigma > 10` is one-sided.  At the pixel
column `[-10, -1, 0, 1, 10]` with threshold 5, the high outlier `10` is
excluded while the low outlier `-10`, whose deviation is below `-5`, is kept. -/
theorem C1_one_sided_rejection :
    colExclude 5 [-10, -1, 0, 1, 10] = [false, false, false, false, true] ∧
    ((-10 : ℚ) - median [-10, -1, 0, 1, 10]) / mad_std [-10, -1, 0, 1, 10] < -5 := by
  norm_num [colExclude, median, mad_std, madConst, exclude,
    List.insertionSort, List.orderedInsert]

/-- Claim C2 (confirmed): at every pixel of a nonempty rectangular stack,
with a positive threshold, some sample survives rejection (any sample at or
below the per-pixel median does), so the degenerate all-rejected pixel never
arises and `clip_combine` yields a genuine mean, never NaN, at every pixel. -/
theorem C2_no_silent_nan (bits : List (List ℚ)) (t : ℚ) (j : ℕ)
    (hne : bits ≠ []) (hrect : ∀ img ∈ bits, img.length = width bits)
    (ht : 0 < t) (hj : j < width bits) :
    (∃ x ∈ column bits j,
      exclude (median (column bits j)) (mad_std (column bits j)) t x = false) ∧
    ∃ q : ℚ, (clip_combine bits t).getD j none = some q := by
  have hcol : column bits j ≠ [] := by simp [column, hne]
  obtain ⟨⟨a, ha, hale⟩, _⟩ := median_bounds (column bits j) hcol
  have hexc : exclude (median (column bits j)) (mad_std (column bits j)) t a = false :=
    exclude_false_of_le _ _ _ _ hale ht (mad_std_nonneg _ hcol)
  refine ⟨⟨a, ha, hexc⟩, ?_⟩
  rw [clip_combine_cols bits t hrect, getD_range_map _ _ _ _ hj]
  apply nanmean_some_of_mem _ a
  exact List.mem_map.mpr ⟨a, ha, by simp [hexc]⟩

/-- Witness for C2 at the stack `[[1], [2], [100]]` with threshold 5. -/
theorem C2_no_silent_nan_witness :
    (∃ x ∈ column [[(1 : ℚ)], [2], [100]] 0,
      exclude (median (column [[(1 : ℚ)], [2], [100]] 0))
        (mad_std (column [[(1 : ℚ)], [2], [100]] 0)) 5 x = false) ∧
    ∃ q : ℚ, (clip_combine [[(1 : ℚ)], [2], [100]] 5).getD 0 none = some q :=
  C2_no_silent_nan [[1], [2], [100]] 5 0 (by simp) (by simp [width])
    (by norm_num) (by simp [width])

/-- Claim C3 (confirmed): at a pixel where all samples are identical the
robust scale is zero, no sample is rejected (for any threshold), and the
combined value at that pixel is the common constant. -/
theorem C3_zero_variance_pixel (bits : List (List ℚ)) (t : ℚ) (j : ℕ) (c : ℚ)
    (hne : bits ≠ []) (hrect : ∀ img ∈ bits, img.length = width bits)
    (hj : j < width bits) (hcol : column bits j = List.replicate bits.length c) :
    colExclude t (column bits j) = List.replicate bits.length false ∧
    (clip_combine bits t).getD j none = some c := by
  have hn : 0 < bits.length := List.length_pos.mpr hne
  constructor
  · rw [hcol]
    exact colExclude_replicate _ hn _ _
  · rw [clip_combine_cols bits t hrect, getD_range_map _ _ _ _ hj, hcol,
      maskCol_replicate _ hn, nanmean_replicate _ hn]

/-- Witness for C3 at the stack `[[2], [2], [2]]` with threshold 7. -/
theorem C3_zero_variance_pixel_witness :
    colExclude 7 (column [[(2 : ℚ)], [2], [2]] 0) = List.replicate 3 false ∧
    (clip_combine [[(2 : ℚ)], [2], [2]] 7).getD 0 none = some 2 :=
  C3_zero_variance_pixel [[2], [2], [2]] 7 0 2 (by simp) (by simp [width])
    (by simp [width]) (by simp [column, List.replicate])

/-- Claim C4 (confirmed): the per-pixel scale `mad_sigma` used for rejection
is 1.4826 times the median of the absolute deviations from the per-pixel
median; on the column `[0, 0, 0, 0, 10]` it differs both from the mean-based
formula in the notebook's prose and (squared) from the variance, so the three
estimators do not coincide. -/
theorem C4_scale_is_median_mad (bits : List (List ℚ)) (j : ℕ)
    (hj : j < width bits) :
    (mad_sigma bits).getD j 0 =
      madConst * median ((column bits j).map (fun x => |x - median (column bits j)|)) ∧
    mad_std [0, 0, 0, 0, 10] ≠ madConst * meanAbsDev [0, 0, 0, 0, 10] ∧
    mad_std [0, 0, 0, 0, 10] ^ 2 ≠ stackVariance [0, 0, 0, 0, 10] := by
  refine ⟨?_, ?_, ?_⟩
  · rw [mad_sigma, getD_range_map _ _ _ _ hj]
    rfl
  · norm_num [mad_std, meanAbsDev, median, madConst,
      List.insertionSort, List.orderedInsert]
  · norm_num [mad_std, stackVariance, median, madConst,
      List.insertionSort, List.orderedInsert]

/-- Witness for C4 at the single-image stack `[[5]]`. -/
theorem C4_scale_is_median_mad_witness :
    (mad_sigma [[(5 : ℚ)]]).getD 0 0 =
      madConst * median ((column [[(5 : ℚ)]] 0).map
        (fun x => |x - median (column [[(5 : ℚ)]] 0)|)) ∧
    mad_std [0, 0, 0, 0, 10] ≠ madConst * meanAbsDev [0, 0, 0, 0, 10] ∧
    mad_std [0, 0, 0, 0, 10] ^ 2 ≠ stackVariance [0, 0, 0, 0, 10] :=
  C4_scale_is_median_mad [[5]] 0 (by simp [width])

/-- Claim C5 (confirmed): after the combination the input stack holds exactly
its original values: the NaN overwrite of the excluded entries is fully
undone by the final restoring assignment. -/
theorem C5_stack_restored (bits : List (List ℚ)) (t : ℚ) :
    restoreOriginal bits (writeNaN bits t) t = bits :=
  restore_writeNaN bits t

/-- Claim C6 (confirmed): a single-image stack is returned unchanged, with no
sample rejected at any pixel (for every threshold, positive ones included:
the robust scale is zero at every pixel, so no sample can be excluded). -/
theorem C6_single_image (img : List ℚ) (t : ℚ) :
    clip_combine [img] t = img.map some ∧
    (List.range img.length).map (fun j => colExclude t (column [img] j)) =
      List.replicate img.length [false] := by
  have hrect : ∀ im ∈ [img], im.length = width [img] := by
    intro im him
    rw [List.mem_singleton.mp him]
    rfl
  have hcol : ∀ j : ℕ, column [img] j = List.replicate 1 (img.getD j 0) := by
    intro j
    rfl
  constructor
  · rw [clip_combine_cols [img] t hrect]
    have hmean : ∀ j ∈ List.range (width [img]),
        nanmean (maskCol t (column [img] j)) = some (img.getD j 0) := by
      intro j _
      rw [hcol j, maskCol_replicate 1 one_pos, nanmean_replicate 1 one_pos]
    rw [List.map_congr_left hmean]
    calc ((List.range (width [img])).map fun j => some (img.getD j 0))
        = ((List.range img.length).map (fun j => img.getD j 0)).map some := by
          rw [List.map_map]
          rfl
      _ = img.map some := by rw [map_getD_range]
  · apply List.eq_replicate_iff.mpr
    refine ⟨by simp, ?_⟩
    intro b hb
    obtain ⟨j, _, rfl⟩ := List.mem_map.mp hb
    rw [hcol j, colExclude_replicate 1 one_pos]
    rfl

/-- Claim C7 (confirmed): if combining a stack produced the fully valid image
`r`, combining the stack of `N` copies of `r` returns `r` unchanged with zero
samples rejected at every pixel (all those columns are constant, hence have
zero robust scale). -/
theorem C7_idempotent_roundtrip (bits : List (List ℚ)) (t : ℚ) (r : List ℚ)
    (hne : bits ≠ []) (_hr : clip_combine bits t = r.map some) :
    clip_combine (List.replicate bits.length r) t = r.map some ∧
    (List.range r.length).map
        (fun j => colExclude t (column (List.replicate bits.length r) j)) =
      List.replicate r.length (List.replicate bits.length false) := by
  have hn : 0 < bits.length := List.length_pos.mpr hne
  have hwid : width (List.replicate bits.length r) = r.length := by
    obtain ⟨m, hm⟩ : ∃ m, bits.length = m + 1 := ⟨bits.length - 1, by omega⟩
    rw [hm]
    rfl
  have hrect : ∀ im ∈ List.replicate bits.length r,
      im.length = width (List.replicate bits.length r) := by
    intro im him
    rw [List.eq_of_mem_replicate him, hwid]
  have hcol : ∀ j : ℕ, column (List.replicate bits.length r) j =
      List.replicate bits.length (r.getD j 0) := by
    intro j
    unfold column
    rw [List.map_replicate]
  constructor
  · rw [clip_combine_cols _ t hrect, hwid]
    have hmean : ∀ j ∈ List.range r.length,
        nanmean (maskCol t (column (List.replicate bits.length r) j)) =
          some (r.getD j 0) := by
      intro j _
      rw [hcol j, maskCol_replicate _ hn, nanmean_replicate _ hn]
    rw [List.map_congr_left hmean]
    calc ((List.range r.length).map fun j => some (r.getD j 0))
        = ((List.range r.length).map (fun j => r.getD j 0)).map some := by
          rw [List.map_map]
          rfl
      _ = r.map some := by rw [map_getD_range]
  · apply List.eq_replicate_iff.mpr
    refine ⟨by simp, ?_⟩
    intro b hb
    obtain ⟨j, _, rfl⟩ := List.mem_map.mp hb
    rw [hcol j, colExclude_replicate _ hn]

/-- Witness for C7: combining `[[1], [2], [100]]` at threshold 5 gives the
valid image `[3/2]`, and recombining three copies of it returns it with no
rejection. -/
theorem C7_idempotent_roundtrip_witness :
    clip_combine (List.replicate (List.length [[(1 : ℚ)], [2], [100]]) [(3 : ℚ)/2]) 5 =
      [(3 : ℚ)/2].map some ∧
    (List.range (List.length [(3 : ℚ)/2])).map
        (fun j => colExclude 5 (column (List.replicate
          (List.length [[(1 : ℚ)], [2], [100]]) [(3 : ℚ)/2]) j)) =
      List.replicate (List.length [(3 : ℚ)/2])
        (List.replicate (List.length [[(1 : ℚ)], [2], [100]]) false) :=
  C7_idempotent_roundtrip [[1], [2], [100]] 5 [3/2] (by simp)
    (by
      norm_num [clip_combine, writeNaN, nanmean, pixelExclude, medianArr,
        mad_sigma, width, column, median, mad_std, madConst, exclude,
        List.insertionSort, List.orderedInsert, List.range_succ,
        List.filterMap_cons, List.filterMap_nil]
      intro h
      exact absurd h (by simp))

/-- Claim C8 (corrected): the demonstration performs no precondition check at
all.  With the non-positive threshold `-1/10` on the stack `[[0], [1], [3]]`
it does not fail: it computes and returns the complete combined image
`[some 0]` (rejecting the samples `1` and `3`, whose deviations exceed
`-1/10`). -/
theorem C8_counterexample_no_threshold_check :
    clip_combine [[0], [1], [3]] (-1/10) = [some 0] ∧ ¬ (0 < (-1/10 : ℚ)) := by
  norm_num [clip_combine, writeNaN, nanmean, pixelExclude, medianArr,
    mad_sigma, width, column, median, mad_std, madConst, exclude,
    List.insertionSort, List.orderedInsert, List.range_succ,
    List.filterMap_cons, List.filterMap_nil]

/-- Claim C8 (amended): the code validates nothing and never raises: for every
stack and every threshold it returns a result of the full image width; an
empty stack yields the empty image rather than an `EmptyStack` error; and a
non-positive threshold is accepted, down to rejecting every sample and
returning a NaN pixel (`[[0], [1], [3]]` at threshold `-1`). -/
theorem C8_no_validation (bits : List (List ℚ)) (t : ℚ) :
    (clip_combine bits t).length = width bits ∧
    clip_combine ([] : List (List ℚ)) t = [] ∧
    clip_combine [[0], [1], [3]] (-1) = [none] := by
  refine ⟨?_, rfl, ?_⟩
  · rw [clip_combine, List.length_map, List.length_range]
  · norm_num [clip_combine, writeNaN, nanmean, pixelExclude, medianArr,
      mad_sigma, width, column, median, mad_std, madConst, exclude,
      List.insertionSort, List.orderedInsert, List.range_succ,
      List.filterMap_cons, List.filterMap_nil]

/-- Claim C9 (confirmed): the operation is deterministic and leaves no lasting
state: running the combination again on the buffer as the first run left it
produces the identical output pair (combined image and final buffer). -/
theorem C9_pure_deterministic (bits : List (List ℚ)) (t : ℚ) :
    combineRun (combineRun bits t).2 t = combineRun bits t := by
  have h2 : (combineRun bits t).2 = bits := restore_writeNaN bits t
  rw [h2]

/-- Claim C10 (corrected, counterexample): zero robust scale with a sample
below the median: on the column `[0, 0, 0, -5, 0]` the MAD scale is zero and
the sample `-5` differs from the median `0`, yet no sample is rejected — its
deviation is `-inf`, not `+inf`, and the rejection test is one-sided. -/
theorem C10_counterexample_below_median_kept :
    mad_std [0, 0, 0, -5, 0] = 0 ∧ (-5 : ℚ) ≠ median [0, 0, 0, -5, 0] ∧
    colExclude 10 [0, 0, 0, -5, 0] = [false, false, false, false, false] := by
  norm_num [colExclude, median, mad_std, madConst, exclude,
    List.insertionSort, List.orderedInsert]

/-- Claim C10 (amended): at a pixel whose robust scale is zero the division is
total and rejection is decided by the sign alone: exactly the samples strictly
above the per-pixel median are rejected (deviation `+inf`); samples equal to
the median (`nan`) and below it (`-inf`) escape. -/
theorem C10_zero_scale_sign_rejection (col : List ℚ) (t : ℚ)
    (hs : mad_std col = 0) :
    colExclude t col = col.map (fun x => decide (median col < x)) := by
  unfold colExclude
  apply List.map_congr_left
  intro x _
  rw [hs, exclude, if_pos rfl]

/-- Witness for the amended C10 on the zero-scale column `[0, 0, 0, -5, 7]`:
only the sample `7`, strictly above the median `0`, is rejected. -/
theorem C10_zero_scale_sign_rejection_witness :
    colExclude 10 [0, 0, 0, -5, 7] =
      ([0, 0, 0, -5, 7] : List ℚ).map (fun x => decide (median [0, 0, 0, -5, 7] < x)) :=
  C10_zero_scale_sign_rejection [0, 0, 0, -5, 7] 10
    (by norm_num [mad_std, median, madConst, List.insertionSort, List.orderedInsert])

end Combine
